import Mathlib

/-!
# Formal model of `lestrrat-go/byteslice`

A shallow embedding of the `byteslice` Go package: a `Buffer` container
holding a byte slice with pluggable base64 encode/decode strategies, a
process-wide codec registry, and the heuristic base64-variant auto-detecting
decoder.  Two revisions of the container (`byteslice.go`, with an internal
mutex, and the lock-free earlier revision) and two revisions of the codec
file are modelled.  Locks are no-ops in this sequential model; Go's
`encoding/base64` and the JSON string (un)quoting of `encoding/json` are
modelled explicitly since the package's behaviour depends on them.

Bytes are modelled as `Nat` with an explicit `< 256` bound where it matters.
-/

set_option maxHeartbeats 1000000

namespace Byteslice

/-- Model of a Go byte-slice value: `data` is the visible contents
(`s[0:len]`), `extra` is the allocated-but-unused tail of the backing array
(`s[len:cap]`).  So `len = data.length` and `cap = data.length + extra.length`. -/
structure GoSlice where
  data : List Nat
  extra : List Nat
deriving Repr, DecidableEq

def GoSlice.len (s : GoSlice) : Nat := s.data.length

def GoSlice.cap (s : GoSlice) : Nat := s.data.length + s.extra.length

/-- Model of Go `copy(dst, src)`, as the new contents of `dst`: the first
`min (len dst) (len src)` elements come from `src`, the rest of `dst` is
unchanged, and the length of `dst` never changes. -/
def goCopy (dst src : List Nat) : List Nat :=
  src.take dst.length ++ dst.drop src.length

/-- Model of the Go reslice expression `s[:l]` (callers guarantee `l ≤ cap`). -/
def GoSlice.reslice (s : GoSlice) (l : Nat) : GoSlice :=
  ⟨(s.data ++ s.extra).take l, (s.data ++ s.extra).drop l⟩

/-! ## Model of Go `encoding/base64`

The four fixed encodings `StdEncoding`, `URLEncoding`, `RawStdEncoding`,
`RawURLEncoding` are the standard/URL alphabet crossed with padded/raw.
The decoder models Go's default (non-strict) mode: unused trailing bits are
not checked; the newline-skipping of Go's decoder is not modelled (no input
considered here contains newlines); `CorruptInputError` byte offsets are
dropped from the error message. -/

/-- The standard base64 alphabet (`base64.StdEncoding`). -/
def stdAlphabet : List Char :=
  "ABCDEFGHIJKLMNOPQRSTUVWXYZabcdefghijklmnopqrstuvwxyz0123456789+/".toList

/-- The URL-safe base64 alphabet (`base64.URLEncoding`): same as the
standard alphabet except at indices 62 and 63. -/
def urlAlphabet : List Char :=
  "ABCDEFGHIJKLMNOPQRSTUVWXYZabcdefghijklmnopqrstuvwxyz0123456789-_".toList

def alphabet (url : Bool) : List Char := if url then urlAlphabet else stdAlphabet

/-- Character emitted for a 6-bit group `i < 64`. -/
def encChar (url : Bool) (i : Nat) : Char := (alphabet url).getD i 'A'

/-- Reverse lookup of a character in the selected alphabet (Go's `decodeMap`). -/
def decIndex (url : Bool) (c : Char) : Option Nat := (alphabet url).findIdx? (· == c)

def decIdxE (url : Bool) (c : Char) : Except String Nat :=
  match decIndex url c with
  | some i => .ok i
  | none => .error "illegal base64 data"

/-- Base64 encoding without padding, processing three input bytes into four
characters per full group (Go's `Encode` loop plus its final-quantum cases). -/
def encodeRaw (url : Bool) : List Nat → List Char
  | [] => []
  | [b0] => [encChar url (b0 / 4), encChar url (b0 % 4 * 16)]
  | [b0, b1] =>
      [encChar url (b0 / 4), encChar url (b0 % 4 * 16 + b1 / 16),
       encChar url (b1 % 16 * 4)]
  | b0 :: b1 :: b2 :: rest =>
      encChar url (b0 / 4) :: encChar url (b0 % 4 * 16 + b1 / 16) ::
      encChar url (b1 % 16 * 4 + b2 / 64) :: encChar url (b2 % 64) ::
      encodeRaw url rest

/-- Padding appended by the padded encodings, determined by `len % 3`. -/
def padOf (n : Nat) : List Char :=
  if n % 3 = 1 then ['=', '='] else if n % 3 = 2 then ['='] else []

/-- `EncodeToString` of the encoding selected by `url` (alphabet) and
`padded` (whether `=` padding is appended). -/
def encodeToString (url padded : Bool) (bs : List Nat) : List Char :=
  encodeRaw url bs ++ (if padded then padOf bs.length else [])

/-- Decode one full 4-character quantum into three bytes. -/
def decodeQuad (url : Bool) (c0 c1 c2 c3 : Char) : Except String (List Nat) :=
  match decIdxE url c0, decIdxE url c1, decIdxE url c2, decIdxE url c3 with
  | .ok i0, .ok i1, .ok i2, .ok i3 =>
      .ok [i0 * 4 + i1 / 16, i1 % 16 * 16 + i2 / 4, i2 % 4 * 64 + i3]
  | .error e, _, _, _ => .error e
  | _, .error e, _, _ => .error e
  | _, _, .error e, _ => .error e
  | _, _, _, .error e => .error e

/-- Decode a final 2-character quantum into one byte (non-strict: the low
four bits of the second index are discarded unchecked). -/
def decodeFinal2 (url : Bool) (c0 c1 : Char) : Except String (List Nat) :=
  match decIdxE url c0, decIdxE url c1 with
  | .ok i0, .ok i1 => .ok [i0 * 4 + i1 / 16]
  | .error e, _ => .error e
  | _, .error e => .error e

/-- Decode a final 3-character quantum into two bytes. -/
def decodeFinal3 (url : Bool) (c0 c1 c2 : Char) : Except String (List Nat) :=
  match decIdxE url c0, decIdxE url c1, decIdxE url c2 with
  | .ok i0, .ok i1, .ok i2 => .ok [i0 * 4 + i1 / 16, i1 % 16 * 16 + i2 / 4]
  | .error e, _, _ => .error e
  | _, .error e, _ => .error e
  | _, _, .error e => .error e

/-- `DecodeString` of a raw (unpadded) encoding: `=` is not in the alphabet
and is rejected; a dangling final quantum of one character is an error. -/
def decodeRaw (url : Bool) : List Char → Except String (List Nat)
  | [] => .ok []
  | [_] => .error "illegal base64 data"
  | [c0, c1] => decodeFinal2 url c0 c1
  | [c0, c1, c2] => decodeFinal3 url c0 c1 c2
  | c0 :: c1 :: c2 :: c3 :: rest =>
      match decodeQuad url c0 c1 c2 c3, decodeRaw url rest with
      | .ok hd, .ok tl => .ok (hd ++ tl)
      | .error e, _ => .error e
      | _, .error e => .error e

/-- `DecodeString` of a padded encoding: the length must be a multiple of
four, `=` may appear only as the last one or two characters of the final
quantum. -/
def decodePadded (url : Bool) : List Char → Except String (List Nat)
  | [] => .ok []
  | c0 :: c1 :: c2 :: c3 :: rest =>
      if rest.isEmpty then
        if c3 == '=' then
          if c2 == '=' then decodeFinal2 url c0 c1
          else decodeFinal3 url c0 c1 c2
        else decodeQuad url c0 c1 c2 c3
      else
        match decodeQuad url c0 c1 c2 c3, decodePadded url rest with
        | .ok hd, .ok tl => .ok (hd ++ tl)
        | .error e, _ => .error e
        | _, .error e => .error e
  | _ => .error "illegal base64 data"

/-! ### Alphabet facts (settled by evaluation over the 64 indices) -/

theorem decIndex_encChar : ∀ (url : Bool), ∀ i < 64, decIndex url (encChar url i) = some i := by
  decide

theorem encChar_ne_pad : ∀ (url : Bool), ∀ i < 64, encChar url i ≠ '=' := by
  decide

theorem encChar_url_ne_plus_slash : ∀ i < 64, encChar true i ≠ '+' ∧ encChar true i ≠ '/' := by
  decide

theorem encChar_std_cases :
    ∀ i < 64, encChar false i = '+' ∨ encChar false i = '/' ∨ encChar false i = encChar true i := by
  decide

/-! ### Roundtrip of the four fixed encodings -/

theorem decodeRaw_encodeRaw (url : Bool) : ∀ (bs : List Nat), (∀ b ∈ bs, b < 256) →
    decodeRaw url (encodeRaw url bs) = .ok bs
  | [], _ => rfl
  | [b0], h => by
      have hb0 : b0 < 256 := h b0 (by simp)
      have h0 := decIndex_encChar url (b0 / 4) (by omega)
      have h1 := decIndex_encChar url (b0 % 4 * 16) (by omega)
      have eA : b0 / 4 * 4 + b0 % 4 * 16 / 16 = b0 := by omega
      simp only [encodeRaw, decodeRaw, decodeFinal2, decIdxE, h0, h1, eA]
  | [b0, b1], h => by
      have hb0 : b0 < 256 := h b0 (by simp)
      have hb1 : b1 < 256 := h b1 (by simp)
      have h0 := decIndex_encChar url (b0 / 4) (by omega)
      have h1 := decIndex_encChar url (b0 % 4 * 16 + b1 / 16) (by omega)
      have h2 := decIndex_encChar url (b1 % 16 * 4) (by omega)
      have eA : b0 / 4 * 4 + (b0 % 4 * 16 + b1 / 16) / 16 = b0 := by omega
      have eB : (b0 % 4 * 16 + b1 / 16) % 16 * 16 + b1 % 16 * 4 / 4 = b1 := by omega
      simp only [encodeRaw, decodeRaw, decodeFinal3, decIdxE, h0, h1, h2, eA, eB]
  | b0 :: b1 :: b2 :: rest, h => by
      have hb0 : b0 < 256 := h b0 (by simp)
      have hb1 : b1 < 256 := h b1 (by simp)
      have hb2 : b2 < 256 := h b2 (by simp)
      have ih := decodeRaw_encodeRaw url rest (fun b hb => h b (by simp [hb]))
      have h0 := decIndex_encChar url (b0 / 4) (by omega)
      have h1 := decIndex_encChar url (b0 % 4 * 16 + b1 / 16) (by omega)
      have h2 := decIndex_encChar url (b1 % 16 * 4 + b2 / 64) (by omega)
      have h3 := decIndex_encChar url (b2 % 64) (by omega)
      have eA : b0 / 4 * 4 + (b0 % 4 * 16 + b1 / 16) / 16 = b0 := by omega
      have eB : (b0 % 4 * 16 + b1 / 16) % 16 * 16 + (b1 % 16 * 4 + b2 / 64) / 4 = b1 := by
        omega
      have eC : (b1 % 16 * 4 + b2 / 64) % 4 * 64 + b2 % 64 = b2 := by omega
      simp only [encodeRaw, decodeRaw, decodeQuad, decIdxE, h0, h1, h2, h3, ih, eA, eB, eC,
        List.cons_append, List.nil_append]

theorem padOf_add_three (n : Nat) : padOf (n + 3) = padOf n := by
  simp [padOf, Nat.add_mod_right]

theorem encodeToString_ne_nil (url p : Bool) (b : Nat) (bs : List Nat) :
    encodeToString url p (b :: bs) ≠ [] := by
  unfold encodeToString
  rcases bs with _ | ⟨b1, bs⟩
  · simp [encodeRaw]
  · rcases bs with _ | ⟨b2, bs⟩ <;> simp [encodeRaw]

theorem decodePadded_encodeToString (url : Bool) : ∀ (bs : List Nat), (∀ b ∈ bs, b < 256) →
    decodePadded url (encodeToString url true bs) = .ok bs
  | [], _ => rfl
  | [b0], h => by
      have hb0 : b0 < 256 := h b0 (by simp)
      have h0 := decIndex_encChar url (b0 / 4) (by omega)
      have h1 := decIndex_encChar url (b0 % 4 * 16) (by omega)
      have eA : b0 / 4 * 4 + b0 % 4 * 16 / 16 = b0 := by omega
      simp only [encodeToString, encodeRaw, padOf, List.length_cons, List.length_nil,
        List.cons_append, List.nil_append]
      norm_num
      simp only [decodePadded, List.isEmpty_nil, if_true, decodeFinal2, decIdxE,
        h0, h1, eA]
      rfl
  | [b0, b1], h => by
      have hb0 : b0 < 256 := h b0 (by simp)
      have hb1 : b1 < 256 := h b1 (by simp)
      have h0 := decIndex_encChar url (b0 / 4) (by omega)
      have h1 := decIndex_encChar url (b0 % 4 * 16 + b1 / 16) (by omega)
      have h2 := decIndex_encChar url (b1 % 16 * 4) (by omega)
      have hne : (encChar url (b1 % 16 * 4) == '=') = false :=
        beq_eq_false_iff_ne.mpr (encChar_ne_pad url _ (by omega))
      have eA : b0 / 4 * 4 + (b0 % 4 * 16 + b1 / 16) / 16 = b0 := by omega
      have eB : (b0 % 4 * 16 + b1 / 16) % 16 * 16 + b1 % 16 * 4 / 4 = b1 := by omega
      simp only [encodeToString, encodeRaw, padOf, List.length_cons, List.length_nil,
        List.cons_append, List.nil_append]
      norm_num
      simp only [decodePadded, List.isEmpty_nil, if_true, hne, decodeFinal3, decIdxE,
        h0, h1, h2, eA, eB]
      rfl
  | b0 :: b1 :: b2 :: rest, h => by
      have hb0 : b0 < 256 := h b0 (by simp)
      have hb1 : b1 < 256 := h b1 (by simp)
      have hb2 : b2 < 256 := h b2 (by simp)
      have ih := decodePadded_encodeToString url rest (fun b hb => h b (by simp [hb]))
      have h0 := decIndex_encChar url (b0 / 4) (by omega)
      have h1 := decIndex_encChar url (b0 % 4 * 16 + b1 / 16) (by omega)
      have h2 := decIndex_encChar url (b1 % 16 * 4 + b2 / 64) (by omega)
      have h3 := decIndex_encChar url (b2 % 64) (by omega)
      have eA : b0 / 4 * 4 + (b0 % 4 * 16 + b1 / 16) / 16 = b0 := by omega
      have eB : (b0 % 4 * 16 + b1 / 16) % 16 * 16 + (b1 % 16 * 4 + b2 / 64) / 4 = b1 := by
        omega
      have eC : (b1 % 16 * 4 + b2 / 64) % 4 * 64 + b2 % 64 = b2 := by omega
      have hsplit : encodeToString url true (b0 :: b1 :: b2 :: rest) =
          encChar url (b0 / 4) :: encChar url (b0 % 4 * 16 + b1 / 16) ::
          encChar url (b1 % 16 * 4 + b2 / 64) :: encChar url (b2 % 64) ::
          encodeToString url true rest := by
        simp only [encodeToString, encodeRaw, List.cons_append, List.length_cons]
        have h3' : rest.length + 1 + 1 + 1 = rest.length + 3 := by omega
        rw [h3', padOf_add_three]
      rw [hsplit]
      rcases rest with _ | ⟨b3, rest2⟩
      · have hne : (encChar url (b2 % 64) == '=') = false :=
          beq_eq_false_iff_ne.mpr (encChar_ne_pad url _ (by omega))
        have hnil : encodeToString url true ([] : List Nat) = [] := rfl
        rw [hnil]
        simp only [decodePadded, List.isEmpty_nil, if_true, hne, decodeQuad, decIdxE,
          h0, h1, h2, h3, eA, eB, eC]
        rfl
      · obtain ⟨c, t, hct⟩ := List.exists_cons_of_ne_nil
          (encodeToString_ne_nil url true b3 rest2)
        rw [hct]
        have hne : ((c :: t).isEmpty) = false := rfl
        simp only [decodePadded, hne, if_false]
        rw [← hct, ih]
        simp only [decodeQuad, decIdxE, h0, h1, h2, h3, eA, eB, eC,
          List.cons_append, List.nil_append, Bool.false_eq_true, if_false]

/-- Every character emitted by `encodeRaw` is an alphabet character. -/
theorem mem_encodeRaw (url : Bool) : ∀ (bs : List Nat), (∀ b ∈ bs, b < 256) →
    ∀ c ∈ encodeRaw url bs, ∃ i, i < 64 ∧ c = encChar url i
  | [], _ => by intro c hc; simp [encodeRaw] at hc
  | [b0], h => by
      have hb0 : b0 < 256 := h b0 (by simp)
      intro c hc
      simp only [encodeRaw, List.mem_cons, List.not_mem_nil, or_false] at hc
      rcases hc with rfl | rfl
      · exact ⟨b0 / 4, by omega, rfl⟩
      · exact ⟨b0 % 4 * 16, by omega, rfl⟩
  | [b0, b1], h => by
      have hb0 : b0 < 256 := h b0 (by simp)
      have hb1 : b1 < 256 := h b1 (by simp)
      intro c hc
      simp only [encodeRaw, List.mem_cons, List.not_mem_nil, or_false] at hc
      rcases hc with rfl | rfl | rfl
      · exact ⟨b0 / 4, by omega, rfl⟩
      · exact ⟨b0 % 4 * 16 + b1 / 16, by omega, rfl⟩
      · exact ⟨b1 % 16 * 4, by omega, rfl⟩
  | b0 :: b1 :: b2 :: rest, h => by
      have hb0 : b0 < 256 := h b0 (by simp)
      have hb1 : b1 < 256 := h b1 (by simp)
      have hb2 : b2 < 256 := h b2 (by simp)
      have ih := mem_encodeRaw url rest (fun b hb => h b (by simp [hb]))
      intro c hc
      simp only [encodeRaw, List.mem_cons] at hc
      rcases hc with rfl | rfl | rfl | rfl | hc
      · exact ⟨b0 / 4, by omega, rfl⟩
      · exact ⟨b0 % 4 * 16 + b1 / 16, by omega, rfl⟩
      · exact ⟨b1 % 16 * 4 + b2 / 64, by omega, rfl⟩
      · exact ⟨b2 % 64, by omega, rfl⟩
      · exact ih c hc

/-! ## The heuristic auto-detecting decoder

`B64v1` models the codec file revision whose encoder contract is infallible
(`B64Encoder.EncodeToString` returns a plain string) and whose `init`
installs `defaultDecodeString` as global decoder and `base64.StdEncoding`
as global encoder.  `B64v2` models the other revision, with a fallible
encoder contract and `RawURLEncoder` as the default encoder. -/

/-- `strings.HasSuffix(src, "=")` (for the one-character suffix this is
exactly: the last character is `=`). -/
def hasSuffixEq (s : List Char) : Bool := s.getLast? == some '='

/-- `strings.ContainsAny(src, "+/")`. -/
def containsPlusSlash (s : List Char) : Bool := s.any fun c => c == '+' || c == '/'

namespace B64v1

/-- The heuristic decoder of the first codec revision: classify by trailing
`=` (padded or raw) and by presence of `+`/`/` (standard or URL alphabet),
then decode with the single selected encoding. -/
def defaultDecodeString (src : List Char) : Except String (List Nat) :=
  let isRaw := !hasSuffixEq src
  let isURL := !containsPlusSlash src
  if isRaw && isURL then decodeRaw true src
  else if isURL then decodePadded true src
  else if isRaw then decodeRaw false src
  else decodePadded false src

end B64v1

namespace B64v2

/-- The heuristic decoder of the second codec revision (`defaultDecode`):
same classification, decoding through `Encoding.Decode` with the error
wrapped as `failed to decode source: %w`. -/
def defaultDecode (src : List Char) : Except String (List Nat) :=
  let isRaw := !hasSuffixEq src
  let isURL := !containsPlusSlash src
  match (if isRaw && isURL then decodeRaw true src
    else if isURL then decodePadded true src
    else if isRaw then decodeRaw false src
    else decodePadded false src) with
  | .ok v => .ok v
  | .error e => .error ("failed to decode source: " ++ e)

/-- The second revision's `defaultDecodeString` just converts the string to
bytes and calls `defaultDecode`. -/
def defaultDecodeString (src : List Char) : Except String (List Nat) :=
  defaultDecode src

theorem defaultDecode_eq (s : List Char) :
    defaultDecode s = match B64v1.defaultDecodeString s with
      | .ok v => .ok v
      | .error e => .error ("failed to decode source: " ++ e) := rfl

end B64v2

/-! ### Classification of the four encodings' outputs -/

/-- No alphabet character is `=`, so a raw encoding never ends in `=`. -/
theorem hasSuffixEq_encodeRaw (url : Bool) (bs : List Nat) (h : ∀ b ∈ bs, b < 256) :
    hasSuffixEq (encodeRaw url bs) = false := by
  unfold hasSuffixEq
  match hgl : (encodeRaw url bs).getLast? with
  | none => rfl
  | some c =>
    obtain ⟨i, _, rfl⟩ := mem_encodeRaw url bs h c (List.mem_of_mem_getLast? hgl)
    simpa using encChar_ne_pad url i (by omega)

theorem encodeToString_mod_zero (url : Bool) (bs : List Nat) (h : bs.length % 3 = 0) :
    encodeToString url true bs = encodeRaw url bs := by
  simp [encodeToString, padOf, h]

theorem hasSuffixEq_encodeToString (url : Bool) (bs : List Nat) (h : bs.length % 3 ≠ 0) :
    hasSuffixEq (encodeToString url true bs) = true := by
  unfold encodeToString hasSuffixEq
  have h3 : bs.length % 3 = 1 ∨ bs.length % 3 = 2 := by omega
  rcases h3 with h3 | h3
  · simp only [padOf, h3, if_true, if_pos]
    rw [show encodeRaw url bs ++ ['=', '='] = (encodeRaw url bs ++ ['=']) ++ ['='] by
      simp, List.getLast?_concat]
    rfl
  · simp only [padOf, h3]
    norm_num

/-- URL-alphabet output (with or without padding) never contains `+` or `/`. -/
theorem containsPlusSlash_encodeToString_url (p : Bool) (bs : List Nat)
    (h : ∀ b ∈ bs, b < 256) : containsPlusSlash (encodeToString true p bs) = false := by
  unfold containsPlusSlash
  rw [List.any_eq_false]
  intro c hc
  rcases List.mem_append.mp (hc : c ∈ encodeRaw true bs ++ _) with hc | hc
  · obtain ⟨i, hi, rfl⟩ := mem_encodeRaw true bs h c hc
    have := encChar_url_ne_plus_slash i hi
    simp [this.1, this.2]
  · have : c = '=' := by
      rcases p with _ | _
      · simp at hc
      · unfold padOf at hc
        have h3 : bs.length % 3 = 0 ∨ bs.length % 3 = 1 ∨ bs.length % 3 = 2 := by omega
        rcases h3 with h3 | h3 | h3 <;> rw [h3] at hc <;> simp_all
    simp [this]

/-- If a standard-alphabet raw encoding happens to contain neither `+` nor
`/`, it is character-for-character the URL-alphabet raw encoding. -/
theorem encodeRaw_std_eq_url : ∀ (bs : List Nat), (∀ b ∈ bs, b < 256) →
    (∀ c ∈ encodeRaw false bs, c ≠ '+' ∧ c ≠ '/') → encodeRaw false bs = encodeRaw true bs
  | [], _, _ => rfl
  | [b0], h, hc => by
      have hb0 : b0 < 256 := h b0 (by simp)
      have k0 := hc (encChar false (b0 / 4)) (by simp [encodeRaw])
      have k1 := hc (encChar false (b0 % 4 * 16)) (by simp [encodeRaw])
      have e0 := encChar_std_cases (b0 / 4) (by omega)
      have e1 := encChar_std_cases (b0 % 4 * 16) (by omega)
      simp only [encodeRaw]
      rcases e0 with e0 | e0 | e0 <;> rcases e1 with e1 | e1 | e1 <;>
        simp_all
  | [b0, b1], h, hc => by
      have hb0 : b0 < 256 := h b0 (by simp)
      have hb1 : b1 < 256 := h b1 (by simp)
      have k0 := hc (encChar false (b0 / 4)) (by simp [encodeRaw])
      have k1 := hc (encChar false (b0 % 4 * 16 + b1 / 16)) (by simp [encodeRaw])
      have k2 := hc (encChar false (b1 % 16 * 4)) (by simp [encodeRaw])
      have e0 := encChar_std_cases (b0 / 4) (by omega)
      have e1 := encChar_std_cases (b0 % 4 * 16 + b1 / 16) (by omega)
      have e2 := encChar_std_cases (b1 % 16 * 4) (by omega)
      simp only [encodeRaw]
      rcases e0 with e0 | e0 | e0 <;> rcases e1 with e1 | e1 | e1 <;>
        rcases e2 with e2 | e2 | e2 <;> simp_all
  | b0 :: b1 :: b2 :: rest, h, hc => by
      have hb0 : b0 < 256 := h b0 (by simp)
      have hb1 : b1 < 256 := h b1 (by simp)
      have hb2 : b2 < 256 := h b2 (by simp)
      have ih := encodeRaw_std_eq_url rest (fun b hb => h b (by simp [hb]))
        (fun c hcm => hc c (by simp [encodeRaw, hcm]))
      have k0 := hc (encChar false (b0 / 4)) (by simp [encodeRaw])
      have k1 := hc (encChar false (b0 % 4 * 16 + b1 / 16)) (by simp [encodeRaw])
      have k2 := hc (encChar false (b1 % 16 * 4 + b2 / 64)) (by simp [encodeRaw])
      have k3 := hc (encChar false (b2 % 64)) (by simp [encodeRaw])
      have e0 := encChar_std_cases (b0 / 4) (by omega)
      have e1 := encChar_std_cases (b0 % 4 * 16 + b1 / 16) (by omega)
      have e2 := encChar_std_cases (b1 % 16 * 4 + b2 / 64) (by omega)
      have e3 := encChar_std_cases (b2 % 64) (by omega)
      simp only [encodeRaw, ih]
      rcases e0 with e0 | e0 | e0 <;> rcases e1 with e1 | e1 | e1 <;>
        rcases e2 with e2 | e2 | e2 <;> rcases e3 with e3 | e3 | e3 <;> simp_all

/-! ### The heuristic decoder inverts each of the four fixed encodings -/

theorem heuristic_url_raw (bs : List Nat) (h : ∀ b ∈ bs, b < 256) :
    B64v1.defaultDecodeString (encodeRaw true bs) = .ok bs := by
  have h1 : hasSuffixEq (encodeRaw true bs) = false := hasSuffixEq_encodeRaw true bs h
  have h2 : containsPlusSlash (encodeRaw true bs) = false := by
    have := containsPlusSlash_encodeToString_url false bs h
    simpa [encodeToString] using this
  unfold B64v1.defaultDecodeString
  simp [h1, h2, decodeRaw_encodeRaw true bs h]

theorem heuristic_url_padded (bs : List Nat) (h : ∀ b ∈ bs, b < 256) :
    B64v1.defaultDecodeString (encodeToString true true bs) = .ok bs := by
  by_cases h3 : bs.length % 3 = 0
  · rw [encodeToString_mod_zero true bs h3]
    exact heuristic_url_raw bs h
  · have h1 : hasSuffixEq (encodeToString true true bs) = true :=
      hasSuffixEq_encodeToString true bs h3
    have h2 : containsPlusSlash (encodeToString true true bs) = false :=
      containsPlusSlash_encodeToString_url true bs h
    unfold B64v1.defaultDecodeString
    simp [h1, h2, decodePadded_encodeToString true bs h]

theorem heuristic_std_raw (bs : List Nat) (h : ∀ b ∈ bs, b < 256) :
    B64v1.defaultDecodeString (encodeRaw false bs) = .ok bs := by
  have h1 : hasSuffixEq (encodeRaw false bs) = false := hasSuffixEq_encodeRaw false bs h
  cases hpc : containsPlusSlash (encodeRaw false bs) with
  | true =>
      unfold B64v1.defaultDecodeString
      simp [h1, hpc, decodeRaw_encodeRaw false bs h]
  | false =>
      have hall : ∀ c ∈ encodeRaw false bs, c ≠ '+' ∧ c ≠ '/' := by
        intro c hc
        have := (List.any_eq_false.mp hpc) c hc
        constructor <;> intro rfl_eq <;> simp [rfl_eq] at this
      have hEq := encodeRaw_std_eq_url bs h hall
      unfold B64v1.defaultDecodeString
      simp only [h1, hpc, Bool.not_false, Bool.and_self, if_true]
      rw [hEq]
      exact decodeRaw_encodeRaw true bs h

theorem heuristic_std_padded (bs : List Nat) (h : ∀ b ∈ bs, b < 256) :
    B64v1.defaultDecodeString (encodeToString false true bs) = .ok bs := by
  by_cases h3 : bs.length % 3 = 0
  · rw [encodeToString_mod_zero false bs h3]
    exact heuristic_std_raw bs h
  · have h1 : hasSuffixEq (encodeToString false true bs) = true :=
      hasSuffixEq_encodeToString false bs h3
    cases hpc : containsPlusSlash (encodeToString false true bs) with
    | true =>
        unfold B64v1.defaultDecodeString
        simp [h1, hpc, decodePadded_encodeToString false bs h]
    | false =>
        have hall : ∀ c ∈ encodeRaw false bs, c ≠ '+' ∧ c ≠ '/' := by
          intro c hc
          have hmem : c ∈ encodeToString false true bs := by
            unfold encodeToString
            exact List.mem_append_left _ hc
          have := (List.any_eq_false.mp hpc) c hmem
          constructor <;> intro rfl_eq <;> simp [rfl_eq] at this
        have hEq := encodeRaw_std_eq_url bs h hall
        have hsEq : encodeToString false true bs = encodeToString true true bs := by
          unfold encodeToString
          rw [hEq]
        unfold B64v1.defaultDecodeString
        simp only [h1, hpc, Bool.not_false, Bool.not_true, Bool.false_and, if_false,
          Bool.false_eq_true, if_true]
        rw [hsEq]
        exact decodePadded_encodeToString true bs h

/-- **C1**: for every byte sequence and each of the four fixed base64
variants (standard/URL alphabet × padded/unpadded), encoding with that
variant and then decoding the text with the default heuristic decoder
yields the original bytes — simultaneously for all four variants, and in
both revisions of the heuristic (`defaultDecodeString` and `defaultDecode`). -/
theorem heuristic_roundtrip_all_variants (bs : List Nat) (h : ∀ b ∈ bs, b < 256) :
    (B64v1.defaultDecodeString (encodeToString false true bs) = .ok bs ∧
     B64v1.defaultDecodeString (encodeToString false false bs) = .ok bs ∧
     B64v1.defaultDecodeString (encodeToString true true bs) = .ok bs ∧
     B64v1.defaultDecodeString (encodeToString true false bs) = .ok bs) ∧
    (B64v2.defaultDecode (encodeToString false true bs) = .ok bs ∧
     B64v2.defaultDecode (encodeToString false false bs) = .ok bs ∧
     B64v2.defaultDecode (encodeToString true true bs) = .ok bs ∧
     B64v2.defaultDecode (encodeToString true false bs) = .ok bs) := by
  have hraw : ∀ u : Bool, encodeToString u false bs = encodeRaw u bs := by
    intro u; simp [encodeToString]
  have v1 : B64v1.defaultDecodeString (encodeToString false true bs) = .ok bs :=
    heuristic_std_padded bs h
  have v2 : B64v1.defaultDecodeString (encodeToString false false bs) = .ok bs := by
    rw [hraw]; exact heuristic_std_raw bs h
  have v3 : B64v1.defaultDecodeString (encodeToString true true bs) = .ok bs :=
    heuristic_url_padded bs h
  have v4 : B64v1.defaultDecodeString (encodeToString true false bs) = .ok bs := by
    rw [hraw]; exact heuristic_url_raw bs h
  refine ⟨⟨v1, v2, v3, v4⟩, ?_, ?_, ?_, ?_⟩ <;>
    rw [B64v2.defaultDecode_eq] <;> simp [v1, v2, v3, v4]

/-- Witness for C1 at the spec's own example bytes `"Alice"`. -/
theorem heuristic_roundtrip_all_variants_witness :
    (B64v1.defaultDecodeString (encodeToString false true [65, 108, 105, 99, 101]) =
        .ok [65, 108, 105, 99, 101] ∧
     B64v1.defaultDecodeString (encodeToString false false [65, 108, 105, 99, 101]) =
        .ok [65, 108, 105, 99, 101] ∧
     B64v1.defaultDecodeString (encodeToString true true [65, 108, 105, 99, 101]) =
        .ok [65, 108, 105, 99, 101] ∧
     B64v1.defaultDecodeString (encodeToString true false [65, 108, 105, 99, 101]) =
        .ok [65, 108, 105, 99, 101]) ∧
    (B64v2.defaultDecode (encodeToString false true [65, 108, 105, 99, 101]) =
        .ok [65, 108, 105, 99, 101] ∧
     B64v2.defaultDecode (encodeToString false false [65, 108, 105, 99, 101]) =
        .ok [65, 108, 105, 99, 101] ∧
     B64v2.defaultDecode (encodeToString true true [65, 108, 105, 99, 101]) =
        .ok [65, 108, 105, 99, 101] ∧
     B64v2.defaultDecode (encodeToString true false [65, 108, 105, 99, 101]) =
        .ok [65, 108, 105, 99, 101]) :=
  heuristic_roundtrip_all_variants [65, 108, 105, 99, 101] (by decide)

/-- Spec-side description of strategy selection: decode with the one fixed
strategy given by the alphabet flag (`url`) and the padding flag (`padded`).
Used to compare the implementation's switch against the spec's two tests. -/
def decodeVariant (url padded : Bool) (s : List Char) : Except String (List Nat) :=
  if padded then decodePadded url s else decodeRaw url s

/-- **C3**: the heuristic decoder classifies its input by exactly two
independent tests — padded iff the trailing character is `=`, URL-safe iff
the text contains neither `+` nor `/` — decodes with the so-selected fixed
strategy, and propagates a decode failure as-is, with no retry under an
alternate alphabet. -/
theorem heuristic_classification (s : List Char) :
    B64v1.defaultDecodeString s =
      decodeVariant (!containsPlusSlash s) (hasSuffixEq s) s ∧
    (∀ e, decodeVariant (!containsPlusSlash s) (hasSuffixEq s) s = .error e →
      B64v1.defaultDecodeString s = .error e) := by
  have hmain : B64v1.defaultDecodeString s =
      decodeVariant (!containsPlusSlash s) (hasSuffixEq s) s := by
    unfold B64v1.defaultDecodeString decodeVariant
    cases hasSuffixEq s <;> cases containsPlusSlash s <;> simp
  exact ⟨hmain, fun e he => hmain.trans he⟩

/-- Witness for C3: on the malformed input `"!"` the selected strategy
(raw + URL) fails and the heuristic decoder returns that same error. -/
theorem heuristic_classification_witness :
    B64v1.defaultDecodeString ['!'] = .error "illegal base64 data" :=
  (heuristic_classification ['!']).2 "illegal base64 data" rfl

/-- **C7**: the empty input text has no trailing `=` and contains neither
`+` nor `/`, so the heuristic classifies it as raw + URL-safe and decodes
it to the empty byte sequence without error (in both codec revisions). -/
theorem heuristic_empty_input :
    hasSuffixEq [] = false ∧
    containsPlusSlash [] = false ∧
    B64v1.defaultDecodeString [] = decodeRaw true [] ∧
    B64v1.defaultDecodeString [] = .ok [] ∧
    B64v2.defaultDecode [] = .ok [] :=
  ⟨rfl, rfl, rfl, rfl, rfl⟩

/-! ## Model of JSON string framing (`encoding/json`, restricted to the
string type used by this package)

The container's `UnmarshalJSON` parses its input as one JSON string literal
(optionally surrounded by whitespace) and `MarshalJSON` produces one.
Simplifications, all irrelevant to the inputs considered here: `\uXXXX`
surrogate pairs are not combined, exact Go error texts are not reproduced,
and U+2028/U+2029 are not escaped on output. -/

def isJSONWhitespace (c : Char) : Bool :=
  c == ' ' || c == '\t' || c == '\n' || c == '\r'

/-- Value of one hex digit (`0-9`, `a-f`, `A-F`), by code point. -/
def hexVal (c : Char) : Option Nat :=
  let n := c.toNat
  if 48 ≤ n ∧ n ≤ 57 then some (n - 48)
  else if 97 ≤ n ∧ n ≤ 102 then some (n - 87)
  else if 65 ≤ n ∧ n ≤ 70 then some (n - 55)
  else none

/-- Scan the body of a JSON string literal after the opening quote; after
the closing quote only whitespace may remain. -/
def jsonStringBody : List Char → List Char → Except String (List Char)
  | [], _ => .error "unexpected end of JSON input"
  | '"' :: rest, acc =>
      if rest.all isJSONWhitespace then .ok acc.reverse
      else .error "invalid character after top-level value"
  | ['\\'], _ => .error "unexpected end of JSON input"
  | '\\' :: c :: rest, acc =>
      match c with
      | '"' => jsonStringBody rest ('"' :: acc)
      | '\\' => jsonStringBody rest ('\\' :: acc)
      | '/' => jsonStringBody rest ('/' :: acc)
      | 'b' => jsonStringBody rest ('\u0008' :: acc)
      | 'f' => jsonStringBody rest ('\u000c' :: acc)
      | 'n' => jsonStringBody rest ('\n' :: acc)
      | 'r' => jsonStringBody rest ('\r' :: acc)
      | 't' => jsonStringBody rest ('\t' :: acc)
      | 'u' =>
          match rest with
          | h1 :: h2 :: h3 :: h4 :: rest2 =>
              match hexVal h1, hexVal h2, hexVal h3, hexVal h4 with
              | some v1, some v2, some v3, some v4 =>
                  jsonStringBody rest2 (Char.ofNat (((v1 * 16 + v2) * 16 + v3) * 16 + v4) :: acc)
              | _, _, _, _ => .error "invalid character in string escape code"
          | _ => .error "unexpected end of JSON input"
      | _ => .error "invalid character in string escape code"
  | c :: rest, acc =>
      if c.toNat < 32 then .error "invalid character in string literal"
      else jsonStringBody rest (c :: acc)

/-- `json.Unmarshal(data, &s)` for a string target: the input must be a
validly framed JSON string literal. -/
def jsonUnmarshalString (data : List Char) : Except String (List Char) :=
  match data.dropWhile isJSONWhitespace with
  | '"' :: rest => jsonStringBody rest []
  | _ => .error "json: cannot unmarshal value into Go value of type string"

def hexDigit (n : Nat) : Char :=
  "0123456789abcdef".toList.getD n '0'

/-- `encoding/json`'s escaping of one character inside a string literal
(with its default HTML escaping of `<`, `>`, `&`). -/
def jsonEscape (c : Char) : List Char :=
  if c == '"' then ['\\', '"']
  else if c == '\\' then ['\\', '\\']
  else if c == '\n' then ['\\', 'n']
  else if c == '\r' then ['\\', 'r']
  else if c == '\t' then ['\\', 't']
  else if c == '<' then ['\\', 'u', '0', '0', '3', 'c']
  else if c == '>' then ['\\', 'u', '0', '0', '3', 'e']
  else if c == '&' then ['\\', 'u', '0', '0', '2', '6']
  else if c.toNat < 32 then ['\\', 'u', '0', '0', hexDigit (c.toNat / 16), hexDigit (c.toNat % 16)]
  else [c]

/-- `json.Marshal` of a string value. -/
def jsonMarshalString (s : List Char) : List Char :=
  '"' :: s.foldr (fun c acc => jsonEscape c ++ acc) ['"']

/-! ## The codec registry -/

/-- A decode strategy (`B64Decoder.DecodeString`). -/
abbrev B64Decoder := List Char → Except String (List Nat)

/-- An encode strategy of the infallible revision (`B64Encoder.EncodeToString`). -/
abbrev B64Encoder := List Nat → List Char

/-- The process-wide registry: the package-level `globalDecoder` and
`globalEncoder` variables.  `none` models a nil interface value. -/
structure Global where
  decoder : Option B64Decoder
  encoder : Option B64Encoder

/-- Registry contents installed by the first codec revision's `init`: the
heuristic decoder and `base64.StdEncoding` (standard alphabet, padded). -/
def globalInit : Global :=
  ⟨some B64v1.defaultDecodeString, some (encodeToString false true)⟩

/-! ## Byte container, current revision (`byteslice.go`)

This revision guards its fields with a `sync.RWMutex`; locking has no
observable effect in this sequential model and is omitted.  `nil` receivers
are modelled by operating on `Option Buffer` where the source checks for
nil; a resolved nil codec (impossible after `init`) would panic in Go and
is modelled as a distinguished `panic:` error. -/

namespace V1

structure Buffer where
  data : GoSlice
  decoder : Option B64Decoder
  encoder : Option B64Encoder

/-- The zero value of `Buffer`. -/
def zeroBuffer : Buffer := ⟨⟨[], []⟩, none, none⟩

/-- `New` installs the given slice as the internal buffer, without copying. -/
def New (data : GoSlice) : Buffer := ⟨data, none, none⟩

def Buffer.b64DecoderNoLock (b : Buffer) (g : Global) : Option B64Decoder :=
  match b.decoder with
  | some d => some d
  | none => g.decoder

def Buffer.SetB64Decoder (b : Buffer) (dec : Option B64Decoder) : Buffer :=
  { b with decoder := dec }

def Buffer.b64EncoderNoLock (b : Buffer) (g : Global) : Option B64Encoder :=
  match b.encoder with
  | some e => some e
  | none => g.encoder

def Buffer.SetEncoder (b : Buffer) (enc : Option B64Encoder) : Buffer :=
  { b with encoder := enc }

def Buffer.decodeAndSetStringNoLock (b : Buffer) (g : Global) (s : List Char) :
    Except String Buffer :=
  match b.b64DecoderNoLock g with
  | none => .error "panic: nil decoder"
  | some dec =>
      match dec s with
      | .error e => .error ("failed to decode string for byteslice.Buffer: " ++ e)
      | .ok buf => .ok { b with data := ⟨buf, []⟩ }

/-- `UnmarshalJSON`, as the returned error paired with the post-call state
of the receiver (a nil receiver stays nil). -/
def UnmarshalJSON (ob : Option Buffer) (g : Global) (data : List Char) :
    Except String Unit × Option Buffer :=
  match ob with
  | none => (.error "nil byteslice.Buffer", none)
  | some b =>
      match jsonUnmarshalString data with
      | .error e => (.error ("failed to unmarshal data to byteslice.Buffer: " ++ e), some b)
      | .ok raw =>
          match b.decodeAndSetStringNoLock g raw with
          | .error e => (.error ("failed to accept unmarshaled data: " ++ e), some b)
          | .ok b2 => (.ok (), some b2)

def MarshalJSON (b : Buffer) (g : Global) : Except String (List Char) :=
  match b.b64EncoderNoLock g with
  | none => .error "panic: nil encoder"
  | some enc => .ok (jsonMarshalString (enc b.data.data))

/-- `Bytes` returns the live internal buffer; a nil receiver yields nil. -/
def Bytes (ob : Option Buffer) : List Nat :=
  match ob with
  | none => []
  | some b => b.data.data

def Buffer.setBytesNoLock (b : Buffer) (data : List Nat) : Buffer :=
  let l := data.length
  let d := if b.data.cap < l then (⟨List.replicate l 0, []⟩ : GoSlice) else b.data
  { b with data := ⟨goCopy d.data data, d.extra⟩ }

def Buffer.SetBytes (b : Buffer) (data : List Nat) : Buffer := b.setBytesNoLock data

def Len (ob : Option Buffer) : Nat :=
  match ob with
  | none => 0
  | some b => b.data.data.length

/-- The dynamic value given to `AcceptValue`: one of the three recognized
types, or any other type carrying its printed type name. -/
inductive GoValue where
  | buffer (ob : Option Buffer)
  | bytes (data : List Nat)
  | str (s : List Char)
  | other (typeName : String)

/-- The dispatch performed by the body of this revision's `AcceptValue`
(the type switch between acquiring the lock and running the defers). -/
def Buffer.acceptValueBody (b : Buffer) (g : Global) (v : GoValue) :
    Except String Unit × Buffer :=
  match v with
  | .buffer ob => (.ok (), b.setBytesNoLock (Bytes ob))
  | .bytes data => (.ok (), b.setBytesNoLock data)
  | .str s =>
      match b.decodeAndSetStringNoLock g s with
      | .error e => (.error ("failed to accept value for byteslice.Buffer: " ++ e), b)
      | .ok b2 => (.ok (), b2)
  | .other t =>
      (.error ("failed to accept value for byteslice.Buffer: can't handle type " ++ t), b)

/-- This revision's `AcceptValue` opens with `b.mu.Lock()` followed by
`defer b.mu.Lock()` — a second `Lock`, not an `Unlock`, of the same
non-reentrant write lock.  The dispatch body runs and mutates the receiver,
but the deferred re-`Lock` executed on the way out blocks forever, so the
call never returns its result to the caller: modelled as `none`. -/
def Buffer.AcceptValue (b : Buffer) (g : Global) (v : GoValue) :
    Option (Except String Unit × Buffer) :=
  let _r := b.acceptValueBody g v
  none

end V1

/-! ## Byte container, lock-free earlier revision (the unnamed variant of
`byteslice.go` without the mutex, whose `SetBytes` reslices to the new
length) -/

namespace V0

structure Buffer where
  data : GoSlice
  decoder : Option B64Decoder
  encoder : Option B64Encoder

def zeroBuffer : Buffer := ⟨⟨[], []⟩, none, none⟩

def New (data : GoSlice) : Buffer := ⟨data, none, none⟩

/-- The `B64Decoder` accessor: per-instance strategy if set, else the
current registry default. -/
def Buffer.B64Decoder (b : Buffer) (g : Global) : Option Byteslice.B64Decoder :=
  match b.decoder with
  | some d => some d
  | none => g.decoder

def Buffer.SetB64Decoder (b : Buffer) (dec : Option Byteslice.B64Decoder) : Buffer :=
  { b with decoder := dec }

def Buffer.B64Encoder (b : Buffer) (g : Global) : Option Byteslice.B64Encoder :=
  match b.encoder with
  | some e => some e
  | none => g.encoder

def Buffer.SetEncoder (b : Buffer) (enc : Option Byteslice.B64Encoder) : Buffer :=
  { b with encoder := enc }

def Buffer.decodeAndSetString (b : Buffer) (g : Global) (s : List Char) :
    Except String Buffer :=
  match b.B64Decoder g with
  | none => .error "panic: nil decoder"
  | some dec =>
      match dec s with
      | .error e => .error ("failed to decode string for byteslice.Buffer: " ++ e)
      | .ok buf => .ok { b with data := ⟨buf, []⟩ }

def UnmarshalJSON (ob : Option Buffer) (g : Global) (data : List Char) :
    Except String Unit × Option Buffer :=
  match ob with
  | none => (.error "nil byteslice.Buffer", none)
  | some b =>
      match jsonUnmarshalString data with
      | .error e => (.error ("failed to unmarshal data to byteslice.Buffer: " ++ e), some b)
      | .ok raw =>
          match b.decodeAndSetString g raw with
          | .error e => (.error ("failed to accept unmarshaled data: " ++ e), some b)
          | .ok b2 => (.ok (), some b2)

def MarshalJSON (b : Buffer) (g : Global) : Except String (List Char) :=
  match b.B64Encoder g with
  | none => .error "panic: nil encoder"
  | some enc => .ok (jsonMarshalString (enc b.data.data))

def Bytes (ob : Option Buffer) : List Nat :=
  match ob with
  | none => []
  | some b => b.data.data

/-- `SetBytes`: reuse the backing array when capacity suffices (reslicing
to the new length), reallocate otherwise, then copy. -/
def Buffer.SetBytes (b : Buffer) (data : List Nat) : Buffer :=
  let l := data.length
  let d := if b.data.cap < l then (⟨List.replicate l 0, []⟩ : GoSlice) else b.data.reslice l
  { b with data := ⟨goCopy d.data data, d.extra⟩ }

def Len (ob : Option Buffer) : Nat :=
  match ob with
  | none => 0
  | some b => b.data.data.length

inductive GoValue where
  | buffer (ob : Option Buffer)
  | bytes (data : List Nat)
  | str (s : List Char)
  | other (typeName : String)

def Buffer.AcceptValue (b : Buffer) (g : Global) (v : GoValue) :
    Except String Unit × Buffer :=
  match v with
  | .buffer ob => (.ok (), b.SetBytes (Bytes ob))
  | .bytes data => (.ok (), b.SetBytes data)
  | .str s =>
      match b.decodeAndSetString g s with
      | .error e => (.error ("failed to accept value for byteslice.Buffer: " ++ e), b)
      | .ok b2 => (.ok (), b2)
  | .other t =>
      (.error ("failed to accept value for byteslice.Buffer: can't handle type " ++ t), b)

end V0

/-! ## Container theorems -/

/-- In the lock-free revision, `SetBytes` always leaves exactly the new
contents visible: reallocation and reslicing both give a backing slice of
the new length before the copy. -/
theorem V0_SetBytes_data (b : V0.Buffer) (data : List Nat) :
    (b.SetBytes data).data.data = data := by
  unfold V0.Buffer.SetBytes goCopy GoSlice.reslice
  by_cases hcap : b.data.cap < data.length
  · simp only [hcap, if_true]
    have h1 : (List.replicate data.length (0 : Nat)).length = data.length :=
      List.length_replicate _ _
    rw [h1, List.take_length]
    have h2 : (List.replicate data.length (0 : Nat)).drop data.length = [] :=
      List.drop_eq_nil_of_le (by rw [h1])
    rw [h2, List.append_nil]
  · simp only [hcap, if_false]
    have hlen : ((b.data.data ++ b.data.extra).take data.length).length = data.length := by
      rw [List.length_take, List.length_append]
      unfold GoSlice.cap at hcap
      omega
    rw [hlen, List.take_length]
    have h2 : ((b.data.data ++ b.data.extra).take data.length).drop data.length = [] :=
      List.drop_eq_nil_of_le (by rw [hlen])
    rw [h2, List.append_nil]

/-- **C2**: assigning a shorter byte sequence after a longer one.  The claim
holds in the lock-free revision (`SetBytes` reslices to the new length), but
in the `byteslice.go` revision `setBytesNoLock` omits the reslice: on the
concrete input below the stored bytes stay `[9, 2, 3]` and `Len` stays `3`
instead of becoming `[9]` and `1`. -/
theorem setBytes_shrink_stale_length :
    ((⟨⟨[1, 2, 3], []⟩, none, none⟩ : V1.Buffer).SetBytes [9]).data.data = [9, 2, 3] ∧
    V1.Len (some ((⟨⟨[1, 2, 3], []⟩, none, none⟩ : V1.Buffer).SetBytes [9])) = 3 ∧
    ((⟨⟨[1, 2, 3], []⟩, none, none⟩ : V0.Buffer).SetBytes [9]).data.data = [9] ∧
    V0.Len (some ((⟨⟨[1, 2, 3], []⟩, none, none⟩ : V0.Buffer).SetBytes [9])) = 1 ∧
    (∀ (b : V0.Buffer) (data : List Nat),
      (b.SetBytes data).data.data = data ∧
      V0.Len (some (b.SetBytes data)) = data.length) := by
  refine ⟨rfl, rfl, rfl, rfl, fun b data => ⟨V0_SetBytes_data b data, ?_⟩⟩
  show (b.SetBytes data).data.data.length = data.length
  rw [V0_SetBytes_data b data]

/-- `decodeAndSetStringNoLock` succeeds exactly by resolving a decoder,
decoding, and fully replacing the stored bytes with the decoded result. -/
theorem V1_decodeAndSet_nil (b : V1.Buffer) (g : Global) (s : List Char)
    (hr : b.b64DecoderNoLock g = none) :
    b.decodeAndSetStringNoLock g s = .error "panic: nil decoder" := by
  simp only [V1.Buffer.decodeAndSetStringNoLock, hr]

theorem V1_decodeAndSet_err (b : V1.Buffer) (g : Global) (s : List Char)
    (dec : B64Decoder) (e : String) (hr : b.b64DecoderNoLock g = some dec)
    (hs : dec s = .error e) :
    b.decodeAndSetStringNoLock g s =
      .error ("failed to decode string for byteslice.Buffer: " ++ e) := by
  simp only [V1.Buffer.decodeAndSetStringNoLock, hr, hs]

theorem V1_decodeAndSet_okEq (b : V1.Buffer) (g : Global) (s : List Char)
    (dec : B64Decoder) (out : List Nat) (hr : b.b64DecoderNoLock g = some dec)
    (hs : dec s = .ok out) :
    b.decodeAndSetStringNoLock g s = .ok { b with data := ⟨out, []⟩ } := by
  simp only [V1.Buffer.decodeAndSetStringNoLock, hr, hs]

theorem V1_decodeAndSet_ok (b : V1.Buffer) (g : Global) (s : List Char) (b2 : V1.Buffer)
    (h : b.decodeAndSetStringNoLock g s = .ok b2) :
    ∃ dec out, b.b64DecoderNoLock g = some dec ∧ dec s = .ok out ∧
      b2 = { b with data := ⟨out, []⟩ } := by
  rcases hr : b.b64DecoderNoLock g with _ | dec
  · rw [V1_decodeAndSet_nil b g s hr] at h
    exact Except.noConfusion h
  · rcases hs : dec s with e | out
    · rw [V1_decodeAndSet_err b g s dec e hr hs] at h
      exact Except.noConfusion h
    · rw [V1_decodeAndSet_okEq b g s dec out hr hs] at h
      simp only [Except.ok.injEq] at h
      exact ⟨dec, out, rfl, hs, h.symm⟩

/-- Case analysis of `UnmarshalJSON` on a non-nil receiver: outer-framing
failure, decode failure, or success with a full replace. -/
theorem V1_unmarshal_cases (b : V1.Buffer) (g : Global) (data : List Char) :
    (∃ e, jsonUnmarshalString data = .error e ∧
      V1.UnmarshalJSON (some b) g data =
        (.error ("failed to unmarshal data to byteslice.Buffer: " ++ e), some b)) ∨
    (∃ raw e, jsonUnmarshalString data = .ok raw ∧
      b.decodeAndSetStringNoLock g raw = .error e ∧
      V1.UnmarshalJSON (some b) g data =
        (.error ("failed to accept unmarshaled data: " ++ e), some b)) ∨
    (∃ raw b2, jsonUnmarshalString data = .ok raw ∧
      b.decodeAndSetStringNoLock g raw = .ok b2 ∧
      V1.UnmarshalJSON (some b) g data = (.ok (), some b2)) := by
  rcases hp : jsonUnmarshalString data with e | raw
  · exact .inl ⟨e, rfl, by simp only [V1.UnmarshalJSON, hp]⟩
  · rcases hd : b.decodeAndSetStringNoLock g raw with e | b2
    · exact .inr (.inl ⟨raw, e, rfl, hd, by simp only [V1.UnmarshalJSON, hp, hd]⟩)
    · exact .inr (.inr ⟨raw, b2, rfl, hd, by simp only [V1.UnmarshalJSON, hp, hd]⟩)

/-- **C4**: if `UnmarshalJSON` fails — outer string framing invalid, or the
resolved decode strategy rejecting the inner text — it returns a wrapped
error (the outer-framing error wrapped once, the decode error wrapped by
both `decodeAndSetStringNoLock` and `UnmarshalJSON`) and the stored bytes
are exactly their pre-call value; on success the stored bytes are fully
replaced by the decoded result. -/
theorem unmarshalJSON_atomic (b : V1.Buffer) (g : Global) (data : List Char) :
    (∀ e, (V1.UnmarshalJSON (some b) g data).fst = .error e →
      (V1.UnmarshalJSON (some b) g data).snd = some b) ∧
    ((V1.UnmarshalJSON (some b) g data).fst = .ok () →
      ∃ raw dec out, jsonUnmarshalString data = .ok raw ∧
        b.b64DecoderNoLock g = some dec ∧ dec raw = .ok out ∧
        (V1.UnmarshalJSON (some b) g data).snd = some { b with data := ⟨out, []⟩ }) ∧
    (∀ e, jsonUnmarshalString data = .error e →
      (V1.UnmarshalJSON (some b) g data).fst =
        .error ("failed to unmarshal data to byteslice.Buffer: " ++ e)) ∧
    (∀ raw dec e, jsonUnmarshalString data = .ok raw →
      b.b64DecoderNoLock g = some dec → dec raw = .error e →
      (V1.UnmarshalJSON (some b) g data).fst =
        .error ("failed to accept unmarshaled data: " ++
          ("failed to decode string for byteslice.Buffer: " ++ e))) := by
  have hD : ∀ raw dec e, jsonUnmarshalString data = .ok raw →
      b.b64DecoderNoLock g = some dec → dec raw = .error e →
      (V1.UnmarshalJSON (some b) g data).fst =
        .error ("failed to accept unmarshaled data: " ++
          ("failed to decode string for byteslice.Buffer: " ++ e)) := by
    intro raw dec e hp hr hs
    have hd := V1_decodeAndSet_err b g raw dec e hr hs
    simp only [V1.UnmarshalJSON, hp, hd]
  rcases V1_unmarshal_cases b g data with ⟨e, hp, hr⟩ | ⟨raw, e, hp, hd, hr⟩ |
    ⟨raw, b2, hp, hd, hr⟩
  · refine ⟨fun e2 _ => by rw [hr], fun hok => ?_, fun e2 hp2 => ?_, hD⟩
    · rw [hr] at hok; simp at hok
    · rw [hp] at hp2
      simp only [Except.error.injEq] at hp2
      rw [hr, hp2]
  · refine ⟨fun e2 _ => by rw [hr], fun hok => ?_, fun e2 hp2 => ?_, hD⟩
    · rw [hr] at hok; simp at hok
    · rw [hp] at hp2; simp at hp2
  · refine ⟨fun e2 he => ?_, fun _ => ?_, fun e2 hp2 => ?_, hD⟩
    · rw [hr] at he; simp at he
    · obtain ⟨dec, out, h1, h2, h3⟩ := V1_decodeAndSet_ok b g raw b2 hd
      exact ⟨raw, dec, out, hp, h1, h2, by rw [hr, h3]⟩
    · rw [hp] at hp2; simp at hp2

/-- Witness for C4: malformed outer framing leaves the container unchanged. -/
theorem unmarshalJSON_atomic_witness :
    (V1.UnmarshalJSON (some V1.zeroBuffer) globalInit ['x']).snd = some V1.zeroBuffer :=
  (unmarshalJSON_atomic V1.zeroBuffer globalInit ['x']).1 _ rfl

/-- **C5**: on a nil container reference, `Bytes` returns an empty result
and `Len` returns zero without failing, while `UnmarshalJSON` returns the
descriptive nil-receiver error (both container revisions). -/
theorem nil_receiver_safety :
    V1.Bytes none = [] ∧ V1.Len none = 0 ∧
    (∀ (g : Global) (data : List Char),
      V1.UnmarshalJSON none g data = (.error "nil byteslice.Buffer", none)) ∧
    V0.Bytes none = [] ∧ V0.Len none = 0 ∧
    (∀ (g : Global) (data : List Char),
      V0.UnmarshalJSON none g data = (.error "nil byteslice.Buffer", none)) :=
  ⟨rfl, rfl, fun _ _ => rfl, rfl, rfl, fun _ _ => rfl⟩

theorem V0_decodeAndSet_err (b : V0.Buffer) (g : Global) (s : List Char)
    (dec : B64Decoder) (e : String) (hr : b.B64Decoder g = some dec)
    (hs : dec s = .error e) :
    b.decodeAndSetString g s =
      .error ("failed to decode string for byteslice.Buffer: " ++ e) := by
  simp only [V0.Buffer.decodeAndSetString, hr, hs]

theorem V0_decodeAndSet_okEq (b : V0.Buffer) (g : Global) (s : List Char)
    (dec : B64Decoder) (out : List Nat) (hr : b.B64Decoder g = some dec)
    (hs : dec s = .ok out) :
    b.decodeAndSetString g s = .ok { b with data := ⟨out, []⟩ } := by
  simp only [V0.Buffer.decodeAndSetString, hr, hs]

/-- **C6**: `AcceptValue` dispatches on the dynamic type of its argument:
another container stores a copy of that container's bytes; a raw byte
sequence behaves exactly like `SetBytes`; a text string is decoded directly
via the resolved decode strategy (no outer-quote stripping) and stored; any
other type yields a type-mismatch error naming the unsupported type.  The
claimed dispatch holds as stated in the lock-free revision; in the
`byteslice.go` revision only the body dispatches this way — the call itself
never returns (its `defer` re-locks the held mutex), which the last four
conjuncts record. -/
theorem acceptValue_dispatch (b : V0.Buffer) (g : Global) :
    (∀ ob, b.AcceptValue g (.buffer ob) = (.ok (), b.SetBytes (V0.Bytes ob)) ∧
      V0.Bytes (some (b.AcceptValue g (.buffer ob)).snd) = V0.Bytes ob) ∧
    (∀ data, b.AcceptValue g (.bytes data) = (.ok (), b.SetBytes data)) ∧
    (∀ s dec out, b.B64Decoder g = some dec → dec s = .ok out →
      b.AcceptValue g (.str s) = (.ok (), { b with data := ⟨out, []⟩ })) ∧
    (∀ s dec e, b.B64Decoder g = some dec → dec s = .error e →
      b.AcceptValue g (.str s) =
        (.error ("failed to accept value for byteslice.Buffer: " ++
          ("failed to decode string for byteslice.Buffer: " ++ e)), b)) ∧
    (∀ t, b.AcceptValue g (.other t) =
      (.error ("failed to accept value for byteslice.Buffer: can't handle type " ++ t), b)) ∧
    (∀ (b1 : V1.Buffer) (v : V1.GoValue), b1.AcceptValue g v = none) ∧
    (∀ (b1 : V1.Buffer) ob1, b1.acceptValueBody g (.buffer ob1) =
      (.ok (), b1.setBytesNoLock (V1.Bytes ob1))) ∧
    (∀ (b1 : V1.Buffer) data, b1.acceptValueBody g (.bytes data) =
      (.ok (), b1.setBytesNoLock data)) ∧
    (∀ (b1 : V1.Buffer) t, b1.acceptValueBody g (.other t) =
      (.error ("failed to accept value for byteslice.Buffer: can't handle type " ++ t), b1)) := by
  refine ⟨fun ob => ⟨rfl, ?_⟩, fun data => rfl, fun s dec out hr hs => ?_,
    fun s dec e hr hs => ?_, fun t => rfl, fun b1 v => rfl, fun b1 ob1 => rfl,
    fun b1 data => rfl, fun b1 t => rfl⟩
  · show (b.SetBytes (V0.Bytes ob)).data.data = V0.Bytes ob
    exact V0_SetBytes_data b _
  · have hd := V0_decodeAndSet_okEq b g s dec out hr hs
    simp only [V0.Buffer.AcceptValue, hd]
  · have hd := V0_decodeAndSet_err b g s dec e hr hs
    simp only [V0.Buffer.AcceptValue, hd]

/-- Witness for C6: the spec's unframed string scenario, `"QWxpY2U"`
ingested via `AcceptValue` stores the bytes of `"Alice"`. -/
theorem acceptValue_dispatch_witness :
    V0.Buffer.AcceptValue V0.zeroBuffer globalInit
        (.str ['Q', 'W', 'x', 'p', 'Y', '2', 'U']) =
      (.ok (), { V0.zeroBuffer with data := ⟨[65, 108, 105, 99, 101], []⟩ }) :=
  (acceptValue_dispatch V0.zeroBuffer globalInit).2.2.1
    ['Q', 'W', 'x', 'p', 'Y', '2', 'U'] B64v1.defaultDecodeString
    [65, 108, 105, 99, 101] rfl rfl

/-- **C8**: codec resolution is lazy and re-evaluated on every operation:
a set per-instance strategy wins; a nil per-instance strategy defers to the
registry default current at the time of the operation, so setting the
per-instance strategy back to nil immediately reverts to the current
global default (both container revisions; decoder and encoder sides). -/
theorem codec_resolution_lazy (b : V1.Buffer) (g g2 : Global) :
    (b.decoder = none → b.b64DecoderNoLock g = g.decoder) ∧
    (∀ d, b.decoder = some d → b.b64DecoderNoLock g = some d) ∧
    (b.SetB64Decoder none).b64DecoderNoLock g2 = g2.decoder ∧
    (b.encoder = none → b.b64EncoderNoLock g = g.encoder) ∧
    (∀ en, b.encoder = some en → b.b64EncoderNoLock g = some en) ∧
    (b.SetEncoder none).b64EncoderNoLock g2 = g2.encoder ∧
    (∀ (b0 : V0.Buffer), b0.decoder = none → b0.B64Decoder g = g.decoder) ∧
    (∀ (b0 : V0.Buffer) d, b0.decoder = some d → b0.B64Decoder g = some d) := by
  refine ⟨fun h => ?_, fun d h => ?_, rfl, fun h => ?_, fun en h => ?_, rfl,
    fun b0 h => ?_, fun b0 d h => ?_⟩
  · simp only [V1.Buffer.b64DecoderNoLock, h]
  · simp only [V1.Buffer.b64DecoderNoLock, h]
  · simp only [V1.Buffer.b64EncoderNoLock, h]
  · simp only [V1.Buffer.b64EncoderNoLock, h]
  · simp only [V0.Buffer.B64Decoder, h]
  · simp only [V0.Buffer.B64Decoder, h]

/-- Witness for C8: the zero buffer (decoder unset) resolves to the
registry's current decoder. -/
theorem codec_resolution_lazy_witness :
    V1.Buffer.b64DecoderNoLock V1.zeroBuffer globalInit = globalInit.decoder :=
  (codec_resolution_lazy V1.zeroBuffer globalInit ⟨none, none⟩).1 rfl

/-- **C9**: a zero-initialized container is immediately usable: `Bytes` and
`Len` work, the `init`-installed registry holds non-nil default codecs, and
`MarshalJSON` / `UnmarshalJSON` (on valid input) succeed without failing. -/
theorem zero_value_usable :
    V1.Bytes (some V1.zeroBuffer) = [] ∧
    V1.Len (some V1.zeroBuffer) = 0 ∧
    globalInit.decoder.isSome = true ∧
    globalInit.encoder.isSome = true ∧
    V1.MarshalJSON V1.zeroBuffer globalInit = .ok ['"', '"'] ∧
    (∀ data raw out, jsonUnmarshalString data = .ok raw →
      B64v1.defaultDecodeString raw = .ok out →
      V1.UnmarshalJSON (some V1.zeroBuffer) globalInit data =
        (.ok (), some { V1.zeroBuffer with data := ⟨out, []⟩ })) := by
  refine ⟨rfl, rfl, rfl, rfl, rfl, fun data raw out hp hd => ?_⟩
  have hr : V1.zeroBuffer.b64DecoderNoLock globalInit =
      some B64v1.defaultDecodeString := rfl
  have hok := V1_decodeAndSet_okEq V1.zeroBuffer globalInit raw
    B64v1.defaultDecodeString out hr hd
  simp only [V1.UnmarshalJSON, hp, hok]

/-- Witness for C9: the zero buffer deserializes the document `"QQ=="`. -/
theorem zero_value_usable_witness :
    V1.UnmarshalJSON (some V1.zeroBuffer) globalInit ['"', 'Q', 'Q', '=', '=', '"'] =
      (.ok (), some { V1.zeroBuffer with data := ⟨[65], []⟩ }) :=
  zero_value_usable.2.2.2.2.2 ['"', 'Q', 'Q', '=', '=', '"'] ['Q', 'Q', '=', '='] [65]
    rfl rfl

/-- **C10**: `New` installs the provided slice as the internal buffer as-is
(no copy), so `Bytes` immediately after `New` returns exactly the given
data, in both revisions. -/
theorem new_installs_without_copy :
    (∀ s : GoSlice, V1.Bytes (some (V1.New s)) = s.data) ∧
    (∀ s : GoSlice, (V1.New s).data = s) ∧
    (∀ s : GoSlice, V0.Bytes (some (V0.New s)) = s.data) :=
  ⟨fun _ => rfl, fun _ => rfl, fun _ => rfl⟩

end Byteslice
